import Mathlib

/-!
Shallow embedding of the qxdl-gentle polite sequential downloader
(src/main.go): the politeness/retry scheduler, the jittered sleeps, the
Retry-After parsing, the fetcher's filesystem behaviour, the range
iteration, and the orchestrator loop as an event trace.

Durations are modelled in ℚ (seconds and nanoseconds are uniform
scalings); Go float64 and time.Duration arithmetic is idealised as exact
rational arithmetic. The random draw fed to rand.Int63n is modelled as an
arbitrary natural number reduced modulo the bound.
-/

namespace Qxdl

/-- Result of one downloadFile call (Go struct dlResult, main.go 21–25):
status code (0 when no response was received), parsed Retry-After duration
(0 when absent or unparsable), and whether an error occurred. -/
structure DlResult where
  statusCode : ℕ
  retryAfter : ℚ
  err : Bool
deriving DecidableEq

/-- The CLI configuration consumed by the main loop (main.go 30–58). -/
structure Cfg where
  startNum : ℕ
  endNum : ℕ
  interval : ℚ
  retries : ℕ
  maxWait : ℚ
  backoff : ℚ
  maxErrors : ℕ
deriving DecidableEq

/-- Failure classification for the streak counter (main.go 126):
transport error, or status ≥ 400 other than 404. -/
def isFailure (res : DlResult) : Bool :=
  res.err || (decide (400 ≤ res.statusCode) && decide (res.statusCode ≠ 404))

/-- Success test of the in-place retry loop (main.go 158):
no transport error and status exactly 200. -/
def isSuccess (res : DlResult) : Bool :=
  !res.err && decide (res.statusCode = 200)

/-- The wait computed after a first-attempt failure (main.go 136–149):
Retry-After verbatim when the status is 429 or 503 and the hint is
positive, otherwise interval × backoff^min(consecErrors, 6); the result is
then capped at maxWait. -/
def firstWait (cfg : Cfg) (consecErrors : ℕ) (res : DlResult) : ℚ :=
  let wait := cfg.interval
  let wait :=
    if res.statusCode = 429 ∧ 0 < res.retryAfter then res.retryAfter
    else if res.statusCode = 503 ∧ 0 < res.retryAfter then res.retryAfter
    else wait * cfg.backoff ^ min consecErrors 6
  if cfg.maxWait < wait then cfg.maxWait else wait

/-- The wait before the next in-loop retry (main.go 166–171):
the hint when positive, else the plain interval; not capped. -/
def retryWait (cfg : Cfg) (res : DlResult) : ℚ :=
  if 0 < res.retryAfter then res.retryAfter else cfg.interval

/-- Uncapped exponential-backoff base wait (main.go 144–145). -/
def backoffBase (cfg : Cfg) (n : ℕ) : ℚ :=
  cfg.interval * cfg.backoff ^ min n 6

/-- Backoff wait after the cap at maxWait (main.go 147–149). -/
def backoffWait (cfg : Cfg) (n : ℕ) : ℚ :=
  min (backoffBase cfg n) cfg.maxWait

/-- sleepWithJitter (main.go 195–210). `base` is the wait in integer
nanoseconds, `frac` the jitter fraction, and `r` the raw random draw
handed to rand.Int63n (reduced modulo 2·j+1 to land in [0, 2·j]).
Returns the duration actually slept. -/
def jitteredWait (base : ℤ) (frac : ℚ) (r : ℕ) : ℤ :=
  if base ≤ 0 then 0
  else
    let j : ℤ := ⌊(base : ℚ) * frac⌋
    let delta : ℤ := (r : ℤ) % (2 * j + 1) - j
    max 0 (base + delta)

/-- One Retry-After header value after lexing: a delta-seconds integer
(strconv.Atoi succeeded), an HTTP-date whose time.Until is `u`, or an
unparsable string. -/
inductive RAHeader where
  | seconds (n : ℤ)
  | date (u : ℚ)
  | malformed
deriving DecidableEq

/-- parseRetryAfter (main.go 264–278): non-negative delta-seconds are
accepted verbatim; a date yields the time until it floored at zero; a
negative integer fails date parsing as well, and malformed input yields
no hint. -/
def parseRetryAfter : RAHeader → Option ℚ
  | .seconds n => if 0 ≤ n then some ((n : ℚ)) else none
  | .date u => some (max u 0)
  | .malformed => none

/-- How downloadFile populates the RetryAfter field from the header
(main.go 230–235): an absent or unparsable header leaves the zero value. -/
def hintOf (h : Option RAHeader) : ℚ :=
  match h with
  | none => 0
  | some hdr => (parseRetryAfter hdr).getD 0

/-- A received HTTP response: status, optional Retry-After header, body. -/
structure Resp where
  status : ℕ
  retryAfterHeader : Option RAHeader
  body : List ℕ
deriving DecidableEq

/-- Network-level outcome of one attempt: request construction failed
(main.go 216–219), client.Do failed (main.go 222–225), or a response was
received. -/
inductive NetResult where
  | reqErr
  | doErr
  | ok (r : Resp)
deriving DecidableEq

/-- Local filesystem fate of the status-200 write sequence
(main.go 241–260): os.Create fails, io.Copy fails after k body bytes,
f.Close fails, os.Rename fails, or everything succeeds. -/
inductive WriteOutcome where
  | createErr
  | copyErr (k : ℕ)
  | closeErr
  | renameErr
  | allOk
deriving DecidableEq

/-- Filesystem operations performed by downloadFile, in program order. -/
inductive FsOp where
  | create (p : String)
  | write (p : String) (data : List ℕ)
  | close (p : String)
  | rename (src dst : String)
deriving DecidableEq

/-- downloadFile (main.go 212–262) as a result plus the ordered list of
filesystem operations it performs. `dest` is fileNow; the temporary file
is dest ++ ".part" (main.go 241). On any status other than 200 the
function returns before touching the filesystem (main.go 237–239). -/
def downloadFile (net : NetResult) (wr : WriteOutcome) (dest : String) :
    DlResult × List FsOp :=
  match net with
  | .reqErr => (⟨0, 0, true⟩, [])
  | .doErr => (⟨0, 0, true⟩, [])
  | .ok r =>
    let hint := hintOf r.retryAfterHeader
    if r.status ≠ 200 then (⟨r.status, hint, false⟩, [])
    else
      let tmp := dest ++ ".part"
      match wr with
      | .createErr => (⟨r.status, hint, true⟩, [])
      | .copyErr k =>
          (⟨r.status, hint, true⟩, [.create tmp, .write tmp (r.body.take k)])
      | .closeErr =>
          (⟨r.status, hint, true⟩, [.create tmp, .write tmp r.body])
      | .renameErr =>
          (⟨r.status, hint, true⟩, [.create tmp, .write tmp r.body, .close tmp])
      | .allOk =>
          (⟨r.status, hint, false⟩,
            [.create tmp, .write tmp r.body, .close tmp, .rename tmp dest])

/-- Abstract filesystem: a path maps to file contents when present. -/
def Fs := String → Option (List ℕ)

/-- Effect of one filesystem operation. -/
def applyOp (fs : Fs) : FsOp → Fs
  | .create p => fun q => if q = p then some [] else fs q
  | .write p data => fun q => if q = p then some ((fs p).getD [] ++ data) else fs q
  | .close _ => fs
  | .rename src dst =>
      fun q => if q = dst then fs src else if q = src then none else fs q

/-- Effect of a sequence of filesystem operations. -/
def applyOps (fs : Fs) (ops : List FsOp) : Fs := ops.foldl applyOp fs

/-- Zero left-padding of the decimal representation to width `pad`
(fmt.Sprintf with the %0*d verb, main.go 108): an over-wide value keeps
its natural width. -/
def padLabel (pad : ℕ) (n : ℕ) : String :=
  String.mk (List.replicate (pad - (toString n).length) '0') ++ toString n

/-- The range iteration (main.go 107–110): one (index, label) task per
index from startNum to endNum inclusive, in loop order. -/
def rangeTasks (startNum endNum pad : ℕ) : List (ℕ × String) :=
  (List.range' startNum (endNum + 1 - startNum)).map fun i => (i, padLabel pad i)

/-- Tags naming the four sleep call sites of the main loop: the delay on
skipping an existing file (main.go 117), the wait after a first-attempt
failure (main.go 150), the wait inside the retry loop (main.go 171), and
the between-files politeness wait (main.go 186). -/
inductive WaitTag where
  | skipW
  | firstW
  | retryW
  | betweenW
deriving DecidableEq

/-- Observable events of one run: a skip of an existing file, a download
attempt (number 0 is the first try of a file, n ≥ 1 its n-th in-loop
retry) with its outcome, a suspension with its pre-jitter base duration,
and the abort log line with the counter value that triggered it. -/
inductive Ev where
  | skip (i : ℕ)
  | attempt (i : ℕ) (no : ℕ) (res : DlResult)
  | wait (tag : WaitTag) (base : ℚ)
  | abort (n : ℕ)
deriving DecidableEq

/-- The environment a run executes against: which indices already exist
on disk, and the outcome of the t-th download attempt of the whole run. -/
structure Env where
  pre : ℕ → Bool
  out : ℕ → DlResult

/-- The in-place retry loop (main.go 152–172). `k` is the global attempt
counter, `a` the printed attempt number, the last argument the attempts
still allowed. A successful attempt ends the loop at once; a failed one
is followed by one wait derived from its own outcome before the loop
continues or exits. Returns the events, the next value of `k`, and the
ok flag. -/
def retryLoop (cfg : Cfg) (env : Env) (i : ℕ) : ℕ → ℕ → ℕ → List Ev × ℕ × Bool
  | k, _, 0 => ([], k, false)
  | k, a, r + 1 =>
    if isSuccess (env.out k) then
      ([.attempt i a (env.out k)], k + 1, true)
    else
      (.attempt i a (env.out k) ::
        .wait .retryW (retryWait cfg (env.out k)) ::
          (retryLoop cfg env i (k + 1) (a + 1) r).1,
        (retryLoop cfg env i (k + 1) (a + 1) r).2)

/-- The main loop (main.go 105–188), driven by a fuel argument bounding
the remaining iterations; `i` is the loop index, `k` the global attempt
counter, `c` the value of consecErrors. Returns the event trace and the
final value of consecErrors. A first-attempt failure increments the
counter and aborts when it reaches maxErrors; otherwise the error-class
wait precedes the retry loop; a non-failure resets the counter. The
between-files wait happens only below endNum and never after a skip or
after a file abandoned by the retry loop. -/
def runFrom (cfg : Cfg) (env : Env) : ℕ → ℕ → ℕ → ℕ → List Ev × ℕ
  | 0, _, _, c => ([], c)
  | fuel + 1, i, k, c =>
    if cfg.endNum < i then ([], c)
    else if env.pre i then
      (.skip i :: .wait .skipW cfg.interval :: (runFrom cfg env fuel (i + 1) k c).1,
        (runFrom cfg env fuel (i + 1) k c).2)
    else if isFailure (env.out k) then
      if cfg.maxErrors ≤ c + 1 then
        ([.attempt i 0 (env.out k), .abort (c + 1)], c + 1)
      else if (retryLoop cfg env i (k + 1) 1 cfg.retries).2.2 then
        (.attempt i 0 (env.out k) ::
          .wait .firstW (firstWait cfg (c + 1) (env.out k)) ::
            ((retryLoop cfg env i (k + 1) 1 cfg.retries).1 ++
              ((if i < cfg.endNum then [Ev.wait .betweenW cfg.interval] else []) ++
                (runFrom cfg env fuel (i + 1)
                  (retryLoop cfg env i (k + 1) 1 cfg.retries).2.1 0).1)),
          (runFrom cfg env fuel (i + 1)
            (retryLoop cfg env i (k + 1) 1 cfg.retries).2.1 0).2)
      else
        (.attempt i 0 (env.out k) ::
          .wait .firstW (firstWait cfg (c + 1) (env.out k)) ::
            ((retryLoop cfg env i (k + 1) 1 cfg.retries).1 ++
              (runFrom cfg env fuel (i + 1)
                (retryLoop cfg env i (k + 1) 1 cfg.retries).2.1 (c + 1)).1),
          (runFrom cfg env fuel (i + 1)
            (retryLoop cfg env i (k + 1) 1 cfg.retries).2.1 (c + 1)).2)
    else
      (.attempt i 0 (env.out k) ::
        ((if i < cfg.endNum then [Ev.wait .betweenW cfg.interval] else []) ++
          (runFrom cfg env fuel (i + 1) (k + 1) 0).1),
        (runFrom cfg env fuel (i + 1) (k + 1) 0).2)

/-- The whole run: the loop from startNum with enough fuel for every
index up to endNum, fresh counters. -/
def run (cfg : Cfg) (env : Env) : List Ev × ℕ :=
  runFrom cfg env (cfg.endNum + 1 - cfg.startNum) cfg.startNum 0 0

/-- The counter update the code applies at each event: plus one on a
failed first attempt, reset on a non-failure first attempt, reset on a
successful retry attempt, unchanged otherwise — in particular unchanged
on a failed retry attempt, whatever its status code. -/
def evStep (c : ℕ) : Ev → ℕ
  | .attempt _ 0 res => if isFailure res then c + 1 else 0
  | .attempt _ (_ + 1) res => if isSuccess res then 0 else c
  | _ => c

/-- Replay of the consecErrors counter over a trace. -/
def replay (c : ℕ) (l : List Ev) : ℕ := l.foldl evStep c

/-- Threshold check for one event: a download attempt must happen while
the counter is strictly below m; other events are unconstrained. -/
def evCheck (m c : ℕ) : Ev → Bool
  | .attempt _ _ _ => decide (c < m)
  | _ => true

/-- Checks that every download attempt in the trace is issued while the
replayed counter is strictly below m. -/
def attemptsBelow (m : ℕ) : ℕ → List Ev → Bool
  | _, [] => true
  | c, e :: rest => evCheck m c e && attemptsBelow m (evStep c e) rest

/-- Checks that no event at all follows an abort event. -/
def abortFinal : List Ev → Bool
  | [] => true
  | .abort _ :: rest => rest.isEmpty
  | _ :: rest => abortFinal rest

/-- Checks that a trace contains no abort event. -/
def noAbort : List Ev → Bool
  | [] => true
  | .abort _ :: _ => false
  | _ :: rest => noAbort rest

/-- The counter update claimed by the specification: reset on any
non-failure outcome, also when it happens on a retry attempt. -/
def evStepSpec (c : ℕ) : Ev → ℕ
  | .attempt _ 0 res => if isFailure res then c + 1 else 0
  | .attempt _ (_ + 1) res => if isFailure res then c else 0
  | _ => c

/-- Replay of the specification's counter over a trace. -/
def replaySpec (c : ℕ) (l : List Ev) : ℕ := l.foldl evStepSpec c

/-- Admissible adjacency of two consecutive events: a retry-loop wait
carries exactly the hint-or-interval wait of the attempt it directly
follows; a retry attempt is immediately preceded by exactly one wait
(the error-class wait for the first retry, a retry-loop wait afterwards);
and after a trailing retry-loop wait the run moves directly to the next
file's first event (a skip or a first attempt), never to another wait. -/
def pairOK (cfg : Cfg) : Ev → Ev → Bool
  | e, .wait .retryW b =>
    (match e with
      | .attempt _ _ res => decide (b = retryWait cfg res)
      | _ => false)
  | e, .attempt _ (_ + 1) _ =>
    (match e with
      | .wait .firstW _ => true
      | .wait .retryW _ => true
      | _ => false)
  | .wait .retryW _, e =>
    (match e with
      | .skip _ => true
      | .attempt _ 0 _ => true
      | _ => false)
  | _, _ => true

end Qxdl

namespace Qxdl

/-- The cap written as a min. -/
theorem cap_eq_min (w m : ℚ) : (if m < w then m else w) = min w m := by
  rcases le_or_lt w m with h | h
  · rw [if_neg (not_lt.mpr h), min_eq_left h]
  · rw [if_pos h, min_eq_right h.le]

/-- With a non-positive hint, the first-failure wait is the capped
exponential backoff, whatever the status code. -/
theorem firstWait_of_no_hint (cfg : Cfg) (c : ℕ) (res : DlResult)
    (hra : res.retryAfter ≤ 0) : firstWait cfg c res = backoffWait cfg c := by
  have h1 : ¬(res.statusCode = 429 ∧ 0 < res.retryAfter) :=
    fun h => absurd hra (not_le.mpr h.2)
  have h2 : ¬(res.statusCode = 503 ∧ 0 < res.retryAfter) :=
    fun h => absurd hra (not_le.mpr h.2)
  unfold firstWait backoffWait backoffBase
  simp only [if_neg h1, if_neg h2]
  exact cap_eq_min _ _

/-- Claim C1 (amended): the retry-loop waits use a positive Retry-After
hint verbatim regardless of the status code; the first-failure wait uses
the hint only when the status is 429 or 503, and then caps it at maxWait;
with a hint on any other status the first-failure wait falls back to the
capped exponential backoff. -/
theorem retryAfter_hint_usage (cfg : Cfg) (c : ℕ) (res : DlResult)
    (hra : 0 < res.retryAfter) :
    retryWait cfg res = res.retryAfter ∧
    (res.statusCode = 429 ∨ res.statusCode = 503 →
      firstWait cfg c res = min res.retryAfter cfg.maxWait) ∧
    (res.statusCode ≠ 429 ∧ res.statusCode ≠ 503 →
      firstWait cfg c res = backoffWait cfg c) := by
  refine ⟨by rw [retryWait, if_pos hra], fun h => ?_, fun h => ?_⟩
  · unfold firstWait
    rcases h with h | h
    · simp only [if_pos (And.intro h hra)]
      exact cap_eq_min _ _
    · by_cases h429 : res.statusCode = 429
      · simp only [if_pos (And.intro h429 hra)]
        exact cap_eq_min _ _
      · have h1 : ¬(res.statusCode = 429 ∧ 0 < res.retryAfter) :=
          fun hh => h429 hh.1
        simp only [if_neg h1, if_pos (And.intro h hra)]
        exact cap_eq_min _ _
  · have h1 : ¬(res.statusCode = 429 ∧ 0 < res.retryAfter) := fun hh => h.1 hh.1
    have h2 : ¬(res.statusCode = 503 ∧ 0 < res.retryAfter) := fun hh => h.2 hh.1
    unfold firstWait backoffWait backoffBase
    simp only [if_neg h1, if_neg h2]
    exact cap_eq_min _ _

/-- Witness for retryAfter_hint_usage at a concrete input. -/
theorem retryAfter_hint_usage_w :
    (0 : ℚ) < (120 : ℚ) ∧
    (retryWait ⟨0, 0, 6, 2, 300, 2, 8⟩ ⟨429, 120, false⟩ = 120 ∧
      ((429 : ℕ) = 429 ∨ (429 : ℕ) = 503 →
        firstWait ⟨0, 0, 6, 2, 300, 2, 8⟩ 3 ⟨429, 120, false⟩ = min (120 : ℚ) 300) ∧
      ((429 : ℕ) ≠ 429 ∧ (429 : ℕ) ≠ 503 →
        firstWait ⟨0, 0, 6, 2, 300, 2, 8⟩ 3 ⟨429, 120, false⟩ =
          backoffWait ⟨0, 0, 6, 2, 300, 2, 8⟩ 3)) :=
  ⟨by norm_num, retryAfter_hint_usage ⟨0, 0, 6, 2, 300, 2, 8⟩ 3 ⟨429, 120, false⟩ (by norm_num)⟩

/-- Counterexample to claim C1 as stated: a 500 response carrying a
Retry-After hint of 120 does not have its hint used as the base of the
immediately following wait; the scheduler computes the capped exponential
backoff 6·2¹ = 12 instead. -/
theorem retryAfter_hint_ignored_on_500_cex :
    firstWait ⟨0, 0, 6, 2, 300, 2, 8⟩ 1 ⟨500, 120, false⟩ = 12 ∧
    (12 : ℚ) ≠ 120 := by
  constructor
  · norm_num [firstWait, min_def]
  · norm_num

/-- Claim C5: with backoff multiplier above 1 and a non-negative interval,
the pre-jitter backoff wait is min(interval·backoff^min(n,6), maxWait):
it is monotone non-decreasing in the streak length, and once the uncapped
base reaches the cap at some streak length, every longer streak waits
exactly maxWait. -/
theorem backoff_monotone_and_capped (cfg : Cfg) (c n m p q : ℕ) (res : DlResult)
    (hb : 1 < cfg.backoff) (hi : 0 ≤ cfg.interval) (hra : res.retryAfter ≤ 0)
    (hnm : n ≤ m) (hcap : cfg.maxWait ≤ backoffBase cfg p) (hpq : p ≤ q) :
    firstWait cfg c res = backoffWait cfg c ∧
    backoffWait cfg n ≤ backoffWait cfg m ∧
    backoffWait cfg q = cfg.maxWait := by
  have hbase : ∀ a b : ℕ, a ≤ b → backoffBase cfg a ≤ backoffBase cfg b := by
    intro a b hab
    exact mul_le_mul_of_nonneg_left
      (pow_le_pow_right₀ hb.le (min_le_min hab le_rfl)) hi
  refine ⟨firstWait_of_no_hint cfg c res hra, ?_, ?_⟩
  · exact min_le_min (hbase n m hnm) le_rfl
  · exact min_eq_right (hcap.trans (hbase p q hpq))

/-- Witness for backoff_monotone_and_capped at a concrete input:
interval 6, backoff 2, cap 60; the base at streak 4 is 96 ≥ 60, so the
wait at streak 5 is exactly the cap. -/
theorem backoff_monotone_and_capped_w :
    ((1 : ℚ) < 2 ∧ (0 : ℚ) ≤ 6 ∧ (0 : ℚ) ≤ 0 ∧ 2 ≤ 3 ∧
      (60 : ℚ) ≤ backoffBase ⟨0, 0, 6, 2, 60, 2, 8⟩ 4 ∧ 4 ≤ 5) ∧
    (firstWait ⟨0, 0, 6, 2, 60, 2, 8⟩ 1 ⟨503, 0, false⟩ =
        backoffWait ⟨0, 0, 6, 2, 60, 2, 8⟩ 1 ∧
      backoffWait ⟨0, 0, 6, 2, 60, 2, 8⟩ 2 ≤ backoffWait ⟨0, 0, 6, 2, 60, 2, 8⟩ 3 ∧
      backoffWait ⟨0, 0, 6, 2, 60, 2, 8⟩ 5 = 60) :=
  ⟨⟨by norm_num, by norm_num, le_rfl, by norm_num, by norm_num [backoffBase, min_def],
      by norm_num⟩,
    backoff_monotone_and_capped ⟨0, 0, 6, 2, 60, 2, 8⟩ 1 2 3 4 5 ⟨503, 0, false⟩
      (by norm_num) (by norm_num) le_rfl (by norm_num)
      (by norm_num [backoffBase, min_def]) (by norm_num)⟩

/-- Claim C6: for base ≥ 0 and jitter fraction in [0, 1], and for every
random draw, the slept duration is never negative and lies in the closed
interval from max(0, base·(1−frac)) to base·(1+frac). -/
theorem jitter_bounds (base : ℤ) (frac : ℚ) (r : ℕ)
    (hb : 0 ≤ base) (h0 : 0 ≤ frac) (h1 : frac ≤ 1) :
    0 ≤ jitteredWait base frac r ∧
    max 0 ((base : ℚ) * (1 - frac)) ≤ ((jitteredWait base frac r : ℤ) : ℚ) ∧
    ((jitteredWait base frac r : ℤ) : ℚ) ≤ (base : ℚ) * (1 + frac) := by
  unfold jitteredWait
  by_cases hb0 : base ≤ 0
  · have hbz : base = 0 := le_antisymm hb0 hb
    subst hbz
    simp
  · push_neg at hb0
    rw [if_neg (not_le.mpr hb0)]
    set j : ℤ := ⌊(base : ℚ) * frac⌋ with hj
    have hbq : (0 : ℚ) ≤ (base : ℚ) := by exact_mod_cast hb
    have hj0 : 0 ≤ j := Int.le_floor.mpr (by simpa using mul_nonneg hbq h0)
    have hjle : (j : ℚ) ≤ (base : ℚ) * frac := Int.floor_le _
    have hne : (2 * j + 1) ≠ 0 := by omega
    have hm0 : 0 ≤ (r : ℤ) % (2 * j + 1) := Int.emod_nonneg _ hne
    have hmlt : (r : ℤ) % (2 * j + 1) < 2 * j + 1 := Int.emod_lt_of_pos _ (by omega)
    set d : ℤ := (r : ℤ) % (2 * j + 1) - j with hd
    have hd1 : -j ≤ d := by omega
    have hd2 : d ≤ j := by omega
    have hd1q : -((base : ℚ) * frac) ≤ (d : ℚ) := by
      have : ((-j : ℤ) : ℚ) ≤ (d : ℚ) := by exact_mod_cast hd1
      push_cast at this
      linarith
    have hd2q : (d : ℚ) ≤ (base : ℚ) * frac := by
      have : ((d : ℤ) : ℚ) ≤ ((j : ℤ) : ℚ) := by exact_mod_cast hd2
      linarith
    refine ⟨le_max_left _ _, ?_, ?_⟩
    · have hcast : ((max 0 (base + d) : ℤ) : ℚ) = max 0 ((base : ℚ) + (d : ℚ)) := by
        push_cast
        rfl
      rw [hcast]
      exact max_le_max le_rfl (by linarith)
    · have hcast : ((max 0 (base + d) : ℤ) : ℚ) = max 0 ((base : ℚ) + (d : ℚ)) := by
        push_cast
        rfl
      rw [hcast]
      refine max_le (by nlinarith) (by linarith)

/-- Witness for jitter_bounds at a concrete input. -/
theorem jitter_bounds_w :
    ((0 : ℤ) ≤ 10 ∧ (0 : ℚ) ≤ 1/2 ∧ (1/2 : ℚ) ≤ 1) ∧
    (0 ≤ jitteredWait 10 (1/2) 3 ∧
      max 0 ((10 : ℚ) * (1 - 1/2)) ≤ ((jitteredWait 10 (1/2) 3 : ℤ) : ℚ) ∧
      ((jitteredWait 10 (1/2) 3 : ℤ) : ℚ) ≤ (10 : ℚ) * (1 + 1/2)) :=
  ⟨⟨by norm_num, by norm_num, by norm_num⟩,
    jitter_bounds 10 (1/2) 3 (by norm_num) (by norm_num) (by norm_num)⟩

/-- Claim C9: a Retry-After header parsing to zero (the delta-seconds
value 0, or an HTTP-date not in the future) is indistinguishable from an
absent header: downloadFile stores 0 either way, and each consumer guards
on a positive hint, so the first-failure wait falls back to exponential
backoff and the retry waits fall back to the plain interval. -/
theorem zero_hint_like_absent (hdr : RAHeader) (u : ℚ) (cfg : Cfg) (c : ℕ)
    (res : DlResult) (hp : parseRetryAfter hdr = some 0) (hu : u ≤ 0)
    (hres : res.retryAfter = 0) :
    hintOf (some hdr) = hintOf none ∧
    parseRetryAfter (.seconds 0) = some 0 ∧
    parseRetryAfter (.date u) = some 0 ∧
    firstWait cfg c res = backoffWait cfg c ∧
    retryWait cfg res = cfg.interval := by
  refine ⟨?_, ?_, ?_, ?_, ?_⟩
  · simp [hintOf, hp]
  · simp [parseRetryAfter]
  · simp [parseRetryAfter, max_eq_right hu]
  · exact firstWait_of_no_hint cfg c res (le_of_eq hres)
  · rw [retryWait, if_neg (by rw [hres]; exact lt_irrefl 0)]

/-- Witness for zero_hint_like_absent at a concrete input: a 429 whose
header parsed to zero is scheduled exactly like a hintless 429. -/
theorem zero_hint_like_absent_w :
    (parseRetryAfter (.seconds 0) = some 0 ∧ (-5 : ℚ) ≤ 0 ∧
      (⟨429, 0, false⟩ : DlResult).retryAfter = 0) ∧
    (hintOf (some (.seconds 0)) = hintOf none ∧
      parseRetryAfter (.seconds 0) = some 0 ∧
      parseRetryAfter (.date (-5)) = some 0 ∧
      firstWait ⟨0, 0, 6, 2, 300, 2, 8⟩ 1 ⟨429, 0, false⟩ =
        backoffWait ⟨0, 0, 6, 2, 300, 2, 8⟩ 1 ∧
      retryWait ⟨0, 0, 6, 2, 300, 2, 8⟩ ⟨429, 0, false⟩ = 6) :=
  ⟨⟨by decide, by norm_num, rfl⟩,
    zero_hint_like_absent (.seconds 0) (-5) ⟨0, 0, 6, 2, 300, 2, 8⟩ 1
      ⟨429, 0, false⟩ (by decide) (by norm_num) rfl⟩

/-- Claim C10: a transport error raised before a response is received
(request construction or client.Do failure) produces a result with no
status code and a zero Retry-After field, and performs no filesystem
operation; the wait after such an outcome is therefore the capped
exponential backoff (first wait) or the plain interval (retry waits),
never a server hint. -/
theorem transport_error_no_hint (wr : WriteOutcome) (dest : String)
    (cfg : Cfg) (c : ℕ) :
    (downloadFile .reqErr wr dest).1 = ⟨0, 0, true⟩ ∧
    (downloadFile .doErr wr dest).1 = ⟨0, 0, true⟩ ∧
    (downloadFile .reqErr wr dest).2 = [] ∧
    (downloadFile .doErr wr dest).2 = [] ∧
    firstWait cfg c ⟨0, 0, true⟩ = backoffWait cfg c ∧
    retryWait cfg ⟨0, 0, true⟩ = cfg.interval := by
  refine ⟨rfl, rfl, rfl, rfl, firstWait_of_no_hint cfg c ⟨0, 0, true⟩ le_rfl, ?_⟩
  rw [retryWait, if_neg (lt_irrefl 0)]

/-- A path is never equal to its temporary sibling. -/
theorem dest_ne_tmp (s : String) : s ≠ s ++ ".part" := by
  intro h
  have h2 := congrArg String.length h
  rw [String.length_append] at h2
  have h5 : (".part" : String).length = 5 := rfl
  rw [h5] at h2
  omega

set_option maxRecDepth 4000 in
/-- Claim C7: on a 200 response the body is written to the temporary
sibling, which is closed before the rename onto dest; on any other status
no filesystem operation happens at all; and after every prefix of the
operation sequence, dest is either absent or holds the complete body —
never a partial file. -/
theorem fetch_atomic (wr : WriteOutcome) (dest : String) (fs : Fs) (n : ℕ)
    (r : Resp) (hfs : fs dest = none) :
    (r.status ≠ 200 → (downloadFile (.ok r) wr dest).2 = []) ∧
    (r.status = 200 → (downloadFile (.ok r) .allOk dest).2 =
      [.create (dest ++ ".part"), .write (dest ++ ".part") r.body,
        .close (dest ++ ".part"), .rename (dest ++ ".part") dest]) ∧
    (applyOps fs ((downloadFile (.ok r) wr dest).2.take n) dest = none ∨
      applyOps fs ((downloadFile (.ok r) wr dest).2.take n) dest = some r.body) ∧
    ((downloadFile (.ok r) wr dest).1.err = false →
      (downloadFile (.ok r) wr dest).1.statusCode = 200 →
      applyOps fs (downloadFile (.ok r) wr dest).2 dest = some r.body) := by
  have hne : dest ≠ dest ++ ".part" := dest_ne_tmp dest
  refine ⟨?_, ?_, ?_, ?_⟩
  · intro h
    simp [downloadFile, if_pos h]
  · intro h
    simp [downloadFile, h]
  · by_cases h200 : r.status = 200
    · cases wr with
      | createErr =>
        left
        simpa [downloadFile, h200, applyOps] using hfs
      | copyErr k =>
        left
        rcases n with - | - | n <;>
          simp [downloadFile, h200, applyOps, applyOp, List.take, hne, hfs]
      | closeErr =>
        left
        rcases n with - | - | n <;>
          simp [downloadFile, h200, applyOps, applyOp, List.take, hne, hfs]
      | renameErr =>
        left
        rcases n with - | - | - | n <;>
          simp [downloadFile, h200, applyOps, applyOp, List.take, hne, hfs]
      | allOk =>
        rcases n with - | - | - | - | n
        · left
          simpa [downloadFile, h200, applyOps] using hfs
        · left
          simp [downloadFile, h200, applyOps, applyOp, List.take, hne, hfs]
        · left
          simp [downloadFile, h200, applyOps, applyOp, List.take, hne, hfs]
        · left
          simp [downloadFile, h200, applyOps, applyOp, List.take, hne, hfs]
        · right
          simp [downloadFile, h200, applyOps, applyOp, List.take, hne]
    · left
      simpa [downloadFile, h200, applyOps] using hfs
  · intro he hs
    by_cases h200 : r.status = 200
    · cases wr with
      | createErr => simp [downloadFile, h200] at he
      | copyErr k => simp [downloadFile, h200] at he
      | closeErr => simp [downloadFile, h200] at he
      | renameErr => simp [downloadFile, h200] at he
      | allOk => simp [downloadFile, h200, applyOps, applyOp, hne]
    · rw [downloadFile] at hs
      simp only [if_pos h200] at hs
      exact absurd hs h200

/-- Witness for fetch_atomic at a concrete input: a clean 200 download of
body [7] into path a over the empty filesystem, seen after two of the
four operations. -/
theorem fetch_atomic_w :
    ((fun _ => (none : Option (List ℕ))) : Fs) "a" = none ∧
    (((⟨200, none, [7]⟩ : Resp).status ≠ 200 →
        (downloadFile (.ok ⟨200, none, [7]⟩) .allOk "a").2 = []) ∧
      ((⟨200, none, [7]⟩ : Resp).status = 200 →
        (downloadFile (.ok ⟨200, none, [7]⟩) .allOk "a").2 =
          [.create ("a" ++ ".part"), .write ("a" ++ ".part") [7],
            .close ("a" ++ ".part"), .rename ("a" ++ ".part") "a"]) ∧
      (applyOps (fun _ => none)
          ((downloadFile (.ok ⟨200, none, [7]⟩) .allOk "a").2.take 2) "a" = none ∨
        applyOps (fun _ => none)
          ((downloadFile (.ok ⟨200, none, [7]⟩) .allOk "a").2.take 2) "a" = some [7]) ∧
      ((downloadFile (.ok ⟨200, none, [7]⟩) .allOk "a").1.err = false →
        (downloadFile (.ok ⟨200, none, [7]⟩) .allOk "a").1.statusCode = 200 →
        applyOps (fun _ => none) (downloadFile (.ok ⟨200, none, [7]⟩) .allOk "a").2 "a" =
          some [7])) :=
  ⟨rfl, fetch_atomic .allOk "a" (fun _ => none) 2 ⟨200, none, [7]⟩ rfl⟩

/-- Claim C8: for start ≤ end the loop produces exactly end − start + 1
tasks, with strictly ascending indices, every label being the index
left-zero-padded to width pad; when the index's decimal width fits in
pad, the label has exactly pad characters. -/
theorem range_tasks_spec (s e pad : ℕ) (t : ℕ × String)
    (h : s ≤ e) (ht : t ∈ rangeTasks s e pad) :
    (rangeTasks s e pad).length = e - s + 1 ∧
    List.Chain' (fun a b : ℕ × String => a.1 < b.1) (rangeTasks s e pad) ∧
    t.2 = padLabel pad t.1 ∧
    ((toString t.1).length ≤ pad → t.2.length = pad) := by
  refine ⟨?_, ?_, ?_, ?_⟩
  · simp only [rangeTasks, List.length_map, List.length_range']
    omega
  · unfold rangeTasks
    rw [List.chain'_map]
    exact (List.pairwise_lt_range' s (e + 1 - s)).chain'
  · obtain ⟨i, hi, rfl⟩ := List.mem_map.mp ht
    rfl
  · obtain ⟨i, hi, rfl⟩ := List.mem_map.mp ht
    intro hlen
    simp only [padLabel, String.length_append] at hlen ⊢
    have hmk : (String.mk (List.replicate (pad - (toString i).length) '0')).length =
        pad - (toString i).length := by
      show (List.replicate (pad - (toString i).length) '0').length =
        pad - (toString i).length
      exact List.length_replicate _ _
    rw [hmk]
    omega

/-- Replay of the counter distributes over append. -/
theorem replay_append (c : ℕ) (l₁ l₂ : List Ev) :
    replay c (l₁ ++ l₂) = replay (replay c l₁) l₂ := by
  simp [replay, List.foldl_append]

/-- The attempt threshold check distributes over append. -/
theorem attemptsBelow_append (m : ℕ) (l₁ l₂ : List Ev) :
    ∀ c, attemptsBelow m c (l₁ ++ l₂) =
      (attemptsBelow m c l₁ && attemptsBelow m (replay c l₁) l₂) := by
  induction l₁ with
  | nil => intro c; simp [attemptsBelow, replay]
  | cons e t ih =>
    intro c
    have h1 : attemptsBelow m c ((e :: t) ++ l₂) =
        (evCheck m c e && attemptsBelow m (evStep c e) (t ++ l₂)) := rfl
    have h2 : attemptsBelow m c (e :: t) =
        (evCheck m c e && attemptsBelow m (evStep c e) t) := rfl
    have h3 : replay c (e :: t) = replay (evStep c e) t := rfl
    rw [h1, h2, h3, ih (evStep c e), Bool.and_assoc]

/-- Behind an abort-free prefix, abortFinal only looks at the suffix. -/
theorem abortFinal_append (l₁ l₂ : List Ev) (h : noAbort l₁ = true) :
    abortFinal (l₁ ++ l₂) = abortFinal l₂ := by
  induction l₁ with
  | nil => rfl
  | cons e t ih =>
    cases e with
    | abort n => simp [noAbort] at h
    | skip i =>
      simp only [List.cons_append, abortFinal]
      exact ih (by simpa [noAbort] using h)
    | attempt i no res =>
      simp only [List.cons_append, abortFinal]
      exact ih (by simpa [noAbort] using h)
    | wait tag b =>
      simp only [List.cons_append, abortFinal]
      exact ih (by simpa [noAbort] using h)

/-- The retry loop emits no abort event, and it replays the counter to
zero exactly when some retry succeeded, leaving it unchanged otherwise —
the counter is never touched by a failed retry attempt. -/
theorem retryLoop_replay (cfg : Cfg) (env : Env) (i : ℕ) :
    ∀ r k a c', 0 < a →
      noAbort (retryLoop cfg env i k a r).1 = true ∧
      replay c' (retryLoop cfg env i k a r).1 =
        (if (retryLoop cfg env i k a r).2.2 = true then 0 else c') := by
  intro r
  induction r with
  | zero =>
    intro k a c' ha
    exact ⟨rfl, rfl⟩
  | succ r ih =>
    intro k a c' ha
    obtain ⟨a', rfl⟩ : ∃ x, a = x + 1 := ⟨a - 1, by omega⟩
    by_cases hs : isSuccess (env.out k) = true
    · refine ⟨by simp [retryLoop, hs, noAbort], ?_⟩
      simp [retryLoop, hs, replay, evStep]
    · have hs' : isSuccess (env.out k) = false := by simpa using hs
      have hrec := ih (k + 1) (a' + 2) c' (by omega)
      have hunf1 : (retryLoop cfg env i k (a' + 1) (r + 1)).1 =
          Ev.attempt i (a' + 1) (env.out k) ::
            Ev.wait .retryW (retryWait cfg (env.out k)) ::
              (retryLoop cfg env i (k + 1) (a' + 2) r).1 := by
        simp only [retryLoop, if_neg hs]
      have hunf2 : (retryLoop cfg env i k (a' + 1) (r + 1)).2 =
          (retryLoop cfg env i (k + 1) (a' + 2) r).2 := by
        simp only [retryLoop, if_neg hs]
      refine ⟨?_, ?_⟩
      · rw [hunf1]
        exact hrec.1
      · rw [hunf1, hunf2]
        have e1 : replay c'
            (Ev.attempt i (a' + 1) (env.out k) ::
              Ev.wait .retryW (retryWait cfg (env.out k)) ::
                (retryLoop cfg env i (k + 1) (a' + 2) r).1) =
            replay
              (evStep (evStep c' (Ev.attempt i (a' + 1) (env.out k)))
                (Ev.wait .retryW (retryWait cfg (env.out k))))
              (retryLoop cfg env i (k + 1) (a' + 2) r).1 := rfl
        rw [e1, show evStep c' (Ev.attempt i (a' + 1) (env.out k)) = c' from by
          simp [evStep, hs'],
          show ∀ c₀ : ℕ, evStep c₀
            (Ev.wait .retryW (retryWait cfg (env.out k))) = c₀ from fun _ => rfl]
        exact hrec.2

/-- Every attempt inside the retry loop is issued below the threshold. -/
theorem retryLoop_below (cfg : Cfg) (env : Env) (i m : ℕ) :
    ∀ r k a c', 0 < a → c' < m →
      attemptsBelow m c' (retryLoop cfg env i k a r).1 = true := by
  intro r
  induction r with
  | zero =>
    intro k a c' ha hc
    rfl
  | succ r ih =>
    intro k a c' ha hc
    obtain ⟨a', rfl⟩ : ∃ x, a = x + 1 := ⟨a - 1, by omega⟩
    by_cases hs : isSuccess (env.out k) = true
    · simp [retryLoop, hs, attemptsBelow, evCheck, evStep, hc]
    · have hs' : isSuccess (env.out k) = false := by simpa using hs
      have hunf1 : (retryLoop cfg env i k (a' + 1) (r + 1)).1 =
          Ev.attempt i (a' + 1) (env.out k) ::
            Ev.wait .retryW (retryWait cfg (env.out k)) ::
              (retryLoop cfg env i (k + 1) (a' + 2) r).1 := by
        simp only [retryLoop, if_neg hs]
      rw [hunf1]
      have e1 : evStep c' (Ev.attempt i (a' + 1) (env.out k)) = c' := by
        simp [evStep, hs']
      have h1 : attemptsBelow m c'
          (Ev.attempt i (a' + 1) (env.out k) ::
            Ev.wait .retryW (retryWait cfg (env.out k)) ::
              (retryLoop cfg env i (k + 1) (a' + 2) r).1) =
          (decide (c' < m) &&
            attemptsBelow m (evStep c' (Ev.attempt i (a' + 1) (env.out k)))
              (Ev.wait .retryW (retryWait cfg (env.out k)) ::
                (retryLoop cfg env i (k + 1) (a' + 2) r).1)) := rfl
      rw [h1, e1]
      have h2 : attemptsBelow m c'
          (Ev.wait .retryW (retryWait cfg (env.out k)) ::
            (retryLoop cfg env i (k + 1) (a' + 2) r).1) =
          (true && attemptsBelow m c' (retryLoop cfg env i (k + 1) (a' + 2) r).1) := rfl
      rw [h2, Bool.true_and, ih (k + 1) (a' + 2) c' (by omega) hc,
        decide_eq_true hc, Bool.and_true]

/-- Claim C2: starting below the threshold, every download attempt of the
run — first try or retry, any file — is issued while the replayed
consecErrors counter is still strictly below maxErrors, and nothing at
all follows an abort event: when the counter reaches the threshold the
run stops at once, with no retry for the triggering file and no attempt
at any further file. -/
theorem threshold_stops_run (cfg : Cfg) (env : Env) (fuel : ℕ) :
    ∀ i k c, c < cfg.maxErrors →
      attemptsBelow cfg.maxErrors c (runFrom cfg env fuel i k c).1 = true ∧
      abortFinal (runFrom cfg env fuel i k c).1 = true := by
  induction fuel with
  | zero =>
    intro i k c hc
    exact ⟨rfl, rfl⟩
  | succ fuel ih =>
    intro i k c hc
    have hm : 0 < cfg.maxErrors := by omega
    have hT1 : ∀ c₀, attemptsBelow cfg.maxErrors c₀
        (if i < cfg.endNum then [Ev.wait .betweenW cfg.interval] else []) = true := by
      intro c₀
      by_cases hlt : i < cfg.endNum <;> simp [hlt, attemptsBelow, evCheck, evStep]
    have hT2 : ∀ c₀, replay c₀
        (if i < cfg.endNum then [Ev.wait .betweenW cfg.interval] else []) = c₀ := by
      intro c₀
      by_cases hlt : i < cfg.endNum <;> simp [hlt, replay, evStep]
    have hT3 : noAbort
        (if i < cfg.endNum then [Ev.wait .betweenW cfg.interval] else []) = true := by
      by_cases hlt : i < cfg.endNum <;> simp [hlt, noAbort]
    by_cases hend : cfg.endNum < i
    · have htr : runFrom cfg env (fuel + 1) i k c = ([], c) := by
        simp only [runFrom]
        rw [if_pos hend]
      rw [htr]
      exact ⟨rfl, rfl⟩
    · by_cases hpre : env.pre i = true
      · have htr : (runFrom cfg env (fuel + 1) i k c).1 =
            Ev.skip i :: Ev.wait .skipW cfg.interval ::
              (runFrom cfg env fuel (i + 1) k c).1 := by
          simp only [runFrom]
          rw [if_neg hend, if_pos hpre]
        rw [htr]
        exact ⟨(ih (i + 1) k c hc).1, (ih (i + 1) k c hc).2⟩
      · by_cases hfail : isFailure (env.out k) = true
        · by_cases hthr : cfg.maxErrors ≤ c + 1
          · have htr : (runFrom cfg env (fuel + 1) i k c).1 =
                [Ev.attempt i 0 (env.out k), Ev.abort (c + 1)] := by
              simp only [runFrom]
              rw [if_neg hend, if_neg hpre, if_pos hfail, if_pos hthr]
            rw [htr]
            refine ⟨?_, rfl⟩
            simp [attemptsBelow, evCheck, evStep, hfail, hc]
          · have hc' : c + 1 < cfg.maxErrors := by omega
            have hrl := retryLoop_replay cfg env i cfg.retries (k + 1) 1 (c + 1)
              Nat.one_pos
            have hbel := retryLoop_below cfg env i cfg.maxErrors cfg.retries
              (k + 1) 1 (c + 1) Nat.one_pos hc'
            have hstep : evStep c (Ev.attempt i 0 (env.out k)) = c + 1 := by
              simp [evStep, hfail]
            by_cases hok : (retryLoop cfg env i (k + 1) 1 cfg.retries).2.2 = true
            · have htr : (runFrom cfg env (fuel + 1) i k c).1 =
                  Ev.attempt i 0 (env.out k) ::
                    Ev.wait .firstW (firstWait cfg (c + 1) (env.out k)) ::
                      ((retryLoop cfg env i (k + 1) 1 cfg.retries).1 ++
                        ((if i < cfg.endNum then [Ev.wait .betweenW cfg.interval]
                          else []) ++
                          (runFrom cfg env fuel (i + 1)
                            (retryLoop cfg env i (k + 1) 1 cfg.retries).2.1 0).1)) := by
                simp only [runFrom]
                rw [if_neg hend, if_neg hpre, if_pos hfail, if_neg hthr, if_pos hok]
              rw [htr]
              constructor
              · have h1 : attemptsBelow cfg.maxErrors c
                    (Ev.attempt i 0 (env.out k) ::
                      Ev.wait .firstW (firstWait cfg (c + 1) (env.out k)) ::
                        ((retryLoop cfg env i (k + 1) 1 cfg.retries).1 ++
                          ((if i < cfg.endNum then [Ev.wait .betweenW cfg.interval]
                            else []) ++
                            (runFrom cfg env fuel (i + 1)
                              (retryLoop cfg env i (k + 1) 1 cfg.retries).2.1 0).1))) =
                    (decide (c < cfg.maxErrors) &&
                      attemptsBelow cfg.maxErrors (evStep c (Ev.attempt i 0 (env.out k)))
                        ((retryLoop cfg env i (k + 1) 1 cfg.retries).1 ++
                          ((if i < cfg.endNum then [Ev.wait .betweenW cfg.interval]
                            else []) ++
                            (runFrom cfg env fuel (i + 1)
                              (retryLoop cfg env i (k + 1) 1 cfg.retries).2.1 0).1))) := rfl
                rw [h1, hstep, decide_eq_true hc, Bool.true_and,
                  attemptsBelow_append, hbel, Bool.true_and, hrl.2, if_pos hok,
                  attemptsBelow_append, hT1, Bool.true_and, hT2]
                exact (ih (i + 1) _ 0 hm).1
              · have h2 : abortFinal
                    (Ev.attempt i 0 (env.out k) ::
                      Ev.wait .firstW (firstWait cfg (c + 1) (env.out k)) ::
                        ((retryLoop cfg env i (k + 1) 1 cfg.retries).1 ++
                          ((if i < cfg.endNum then [Ev.wait .betweenW cfg.interval]
                            else []) ++
                            (runFrom cfg env fuel (i + 1)
                              (retryLoop cfg env i (k + 1) 1 cfg.retries).2.1 0).1))) =
                    abortFinal
                      ((retryLoop cfg env i (k + 1) 1 cfg.retries).1 ++
                        ((if i < cfg.endNum then [Ev.wait .betweenW cfg.interval]
                          else []) ++
                          (runFrom cfg env fuel (i + 1)
                            (retryLoop cfg env i (k + 1) 1 cfg.retries).2.1 0).1)) := rfl
                rw [h2, abortFinal_append _ _ hrl.1, abortFinal_append _ _ hT3]
                exact (ih (i + 1) _ 0 hm).2
            · have htr : (runFrom cfg env (fuel + 1) i k c).1 =
                  Ev.attempt i 0 (env.out k) ::
                    Ev.wait .firstW (firstWait cfg (c + 1) (env.out k)) ::
                      ((retryLoop cfg env i (k + 1) 1 cfg.retries).1 ++
                        (runFrom cfg env fuel (i + 1)
                          (retryLoop cfg env i (k + 1) 1 cfg.retries).2.1 (c + 1)).1) := by
                simp only [runFrom]
                rw [if_neg hend, if_neg hpre, if_pos hfail, if_neg hthr, if_neg hok]
              rw [htr]
              constructor
              · have h1 : attemptsBelow cfg.maxErrors c
                    (Ev.attempt i 0 (env.out k) ::
                      Ev.wait .firstW (firstWait cfg (c + 1) (env.out k)) ::
                        ((retryLoop cfg env i (k + 1) 1 cfg.retries).1 ++
                          (runFrom cfg env fuel (i + 1)
                            (retryLoop cfg env i (k + 1) 1 cfg.retries).2.1 (c + 1)).1)) =
                    (decide (c < cfg.maxErrors) &&
                      attemptsBelow cfg.maxErrors (evStep c (Ev.attempt i 0 (env.out k)))
                        ((retryLoop cfg env i (k + 1) 1 cfg.retries).1 ++
                          (runFrom cfg env fuel (i + 1)
                            (retryLoop cfg env i (k + 1) 1 cfg.retries).2.1 (c + 1)).1)) :=
                  rfl
                rw [h1, hstep, decide_eq_true hc, Bool.true_and,
                  attemptsBelow_append, hbel, Bool.true_and, hrl.2, if_neg hok]
                exact (ih (i + 1) _ (c + 1) hc').1
              · have h2 : abortFinal
                    (Ev.attempt i 0 (env.out k) ::
                      Ev.wait .firstW (firstWait cfg (c + 1) (env.out k)) ::
                        ((retryLoop cfg env i (k + 1) 1 cfg.retries).1 ++
                          (runFrom cfg env fuel (i + 1)
                            (retryLoop cfg env i (k + 1) 1 cfg.retries).2.1 (c + 1)).1)) =
                    abortFinal
                      ((retryLoop cfg env i (k + 1) 1 cfg.retries).1 ++
                        (runFrom cfg env fuel (i + 1)
                          (retryLoop cfg env i (k + 1) 1 cfg.retries).2.1 (c + 1)).1) := rfl
                rw [h2, abortFinal_append _ _ hrl.1]
                exact (ih (i + 1) _ (c + 1) hc').2
        · have hfail' : isFailure (env.out k) = false := by simpa using hfail
          have htr : (runFrom cfg env (fuel + 1) i k c).1 =
              Ev.attempt i 0 (env.out k) ::
                ((if i < cfg.endNum then [Ev.wait .betweenW cfg.interval] else []) ++
                  (runFrom cfg env fuel (i + 1) (k + 1) 0).1) := by
            simp only [runFrom]
            rw [if_neg hend, if_neg hpre, if_neg hfail]
          rw [htr]
          have hstep : evStep c (Ev.attempt i 0 (env.out k)) = 0 := by
            simp [evStep, hfail']
          constructor
          · have h1 : attemptsBelow cfg.maxErrors c
                (Ev.attempt i 0 (env.out k) ::
                  ((if i < cfg.endNum then [Ev.wait .betweenW cfg.interval] else []) ++
                    (runFrom cfg env fuel (i + 1) (k + 1) 0).1)) =
                (decide (c < cfg.maxErrors) &&
                  attemptsBelow cfg.maxErrors (evStep c (Ev.attempt i 0 (env.out k)))
                    ((if i < cfg.endNum then [Ev.wait .betweenW cfg.interval] else []) ++
                      (runFrom cfg env fuel (i + 1) (k + 1) 0).1)) := rfl
            rw [h1, hstep, decide_eq_true hc, Bool.true_and,
              attemptsBelow_append, hT1, Bool.true_and, hT2]
            exact (ih (i + 1) (k + 1) 0 hm).1
          · have h2 : abortFinal
                (Ev.attempt i 0 (env.out k) ::
                  ((if i < cfg.endNum then [Ev.wait .betweenW cfg.interval] else []) ++
                    (runFrom cfg env fuel (i + 1) (k + 1) 0).1)) =
                abortFinal
                  ((if i < cfg.endNum then [Ev.wait .betweenW cfg.interval] else []) ++
                    (runFrom cfg env fuel (i + 1) (k + 1) 0).1) := rfl
            rw [h2, abortFinal_append _ _ hT3]
            exact (ih (i + 1) (k + 1) 0 hm).2

/-- Witness for threshold_stops_run at a concrete input: maxErrors 1 and
an environment that always fails, so the run aborts on the very first
failure. -/
theorem threshold_stops_run_w :
    (0 < 1) ∧
    (attemptsBelow 1 0
        (runFrom ⟨0, 1, 6, 2, 300, 2, 1⟩
          ⟨fun _ => false, fun _ => ⟨500, 0, false⟩⟩ 2 0 0 0).1 = true ∧
      abortFinal
        (runFrom ⟨0, 1, 6, 2, 300, 2, 1⟩
          ⟨fun _ => false, fun _ => ⟨500, 0, false⟩⟩ 2 0 0 0).1 = true) :=
  ⟨Nat.one_pos,
    threshold_stops_run ⟨0, 1, 6, 2, 300, 2, 1⟩
      ⟨fun _ => false, fun _ => ⟨500, 0, false⟩⟩ 2 0 0 0 Nat.one_pos⟩

/-- Claim C3 (amended): the final value of consecErrors equals the replay
of the per-event update rule over the trace: plus exactly one per file
whose first attempt is classified a failure (never per retry attempt),
reset to exactly zero on a non-failure first attempt (success or 404) and
on a successful retry attempt, but left unchanged by a failed retry
attempt — in particular a 404 arriving on a retry attempt does not reset
the counter. -/
theorem counter_replay (cfg : Cfg) (env : Env) (fuel : ℕ) :
    ∀ i k c, (runFrom cfg env fuel i k c).2 =
      replay c (runFrom cfg env fuel i k c).1 := by
  induction fuel with
  | zero =>
    intro i k c
    rfl
  | succ fuel ih =>
    intro i k c
    have hT2 : ∀ c₀, replay c₀
        (if i < cfg.endNum then [Ev.wait .betweenW cfg.interval] else []) = c₀ := by
      intro c₀
      by_cases hlt : i < cfg.endNum <;> simp [hlt, replay, evStep]
    by_cases hend : cfg.endNum < i
    · have htr : runFrom cfg env (fuel + 1) i k c = ([], c) := by
        simp only [runFrom]
        rw [if_pos hend]
      rw [htr]
      rfl
    · by_cases hpre : env.pre i = true
      · have htr1 : (runFrom cfg env (fuel + 1) i k c).1 =
            Ev.skip i :: Ev.wait .skipW cfg.interval ::
              (runFrom cfg env fuel (i + 1) k c).1 := by
          simp only [runFrom]
          rw [if_neg hend, if_pos hpre]
        have htr2 : (runFrom cfg env (fuel + 1) i k c).2 =
            (runFrom cfg env fuel (i + 1) k c).2 := by
          simp only [runFrom]
          rw [if_neg hend, if_pos hpre]
        rw [htr1, htr2]
        exact ih (i + 1) k c
      · by_cases hfail : isFailure (env.out k) = true
        · have hstep : evStep c (Ev.attempt i 0 (env.out k)) = c + 1 := by
            simp [evStep, hfail]
          by_cases hthr : cfg.maxErrors ≤ c + 1
          · have htr : runFrom cfg env (fuel + 1) i k c =
                ([Ev.attempt i 0 (env.out k), Ev.abort (c + 1)], c + 1) := by
              simp only [runFrom]
              rw [if_neg hend, if_neg hpre, if_pos hfail, if_pos hthr]
            rw [htr]
            simp [replay, evStep, hfail]
          · have hrl := retryLoop_replay cfg env i cfg.retries (k + 1) 1 (c + 1)
              Nat.one_pos
            by_cases hok : (retryLoop cfg env i (k + 1) 1 cfg.retries).2.2 = true
            · have htr1 : (runFrom cfg env (fuel + 1) i k c).1 =
                  Ev.attempt i 0 (env.out k) ::
                    Ev.wait .firstW (firstWait cfg (c + 1) (env.out k)) ::
                      ((retryLoop cfg env i (k + 1) 1 cfg.retries).1 ++
                        ((if i < cfg.endNum then [Ev.wait .betweenW cfg.interval]
                          else []) ++
                          (runFrom cfg env fuel (i + 1)
                            (retryLoop cfg env i (k + 1) 1 cfg.retries).2.1 0).1)) := by
                simp only [runFrom]
                rw [if_neg hend, if_neg hpre, if_pos hfail, if_neg hthr, if_pos hok]
              have htr2 : (runFrom cfg env (fuel + 1) i k c).2 =
                  (runFrom cfg env fuel (i + 1)
                    (retryLoop cfg env i (k + 1) 1 cfg.retries).2.1 0).2 := by
                simp only [runFrom]
                rw [if_neg hend, if_neg hpre, if_pos hfail, if_neg hthr, if_pos hok]
              rw [htr1, htr2]
              have e1 : replay c
                  (Ev.attempt i 0 (env.out k) ::
                    Ev.wait .firstW (firstWait cfg (c + 1) (env.out k)) ::
                      ((retryLoop cfg env i (k + 1) 1 cfg.retries).1 ++
                        ((if i < cfg.endNum then [Ev.wait .betweenW cfg.interval]
                          else []) ++
                          (runFrom cfg env fuel (i + 1)
                            (retryLoop cfg env i (k + 1) 1 cfg.retries).2.1 0).1))) =
                  replay (evStep c (Ev.attempt i 0 (env.out k)))
                    ((retryLoop cfg env i (k + 1) 1 cfg.retries).1 ++
                      ((if i < cfg.endNum then [Ev.wait .betweenW cfg.interval]
                        else []) ++
                        (runFrom cfg env fuel (i + 1)
                          (retryLoop cfg env i (k + 1) 1 cfg.retries).2.1 0).1)) := rfl
              rw [e1, hstep, replay_append, hrl.2, if_pos hok, replay_append, hT2]
              exact ih (i + 1) _ 0
            · have htr1 : (runFrom cfg env (fuel + 1) i k c).1 =
                  Ev.attempt i 0 (env.out k) ::
                    Ev.wait .firstW (firstWait cfg (c + 1) (env.out k)) ::
                      ((retryLoop cfg env i (k + 1) 1 cfg.retries).1 ++
                        (runFrom cfg env fuel (i + 1)
                          (retryLoop cfg env i (k + 1) 1 cfg.retries).2.1 (c + 1)).1) := by
                simp only [runFrom]
                rw [if_neg hend, if_neg hpre, if_pos hfail, if_neg hthr, if_neg hok]
              have htr2 : (runFrom cfg env (fuel + 1) i k c).2 =
                  (runFrom cfg env fuel (i + 1)
                    (retryLoop cfg env i (k + 1) 1 cfg.retries).2.1 (c + 1)).2 := by
                simp only [runFrom]
                rw [if_neg hend, if_neg hpre, if_pos hfail, if_neg hthr, if_neg hok]
              rw [htr1, htr2]
              have e1 : replay c
                  (Ev.attempt i 0 (env.out k) ::
                    Ev.wait .firstW (firstWait cfg (c + 1) (env.out k)) ::
                      ((retryLoop cfg env i (k + 1) 1 cfg.retries).1 ++
                        (runFrom cfg env fuel (i + 1)
                          (retryLoop cfg env i (k + 1) 1 cfg.retries).2.1 (c + 1)).1)) =
                  replay (evStep c (Ev.attempt i 0 (env.out k)))
                    ((retryLoop cfg env i (k + 1) 1 cfg.retries).1 ++
                      (runFrom cfg env fuel (i + 1)
                        (retryLoop cfg env i (k + 1) 1 cfg.retries).2.1 (c + 1)).1) := rfl
              rw [e1, hstep, replay_append, hrl.2, if_neg hok]
              exact ih (i + 1) _ (c + 1)
        · have hfail' : isFailure (env.out k) = false := by simpa using hfail
          have hstep : evStep c (Ev.attempt i 0 (env.out k)) = 0 := by
            simp [evStep, hfail']
          have htr1 : (runFrom cfg env (fuel + 1) i k c).1 =
              Ev.attempt i 0 (env.out k) ::
                ((if i < cfg.endNum then [Ev.wait .betweenW cfg.interval] else []) ++
                  (runFrom cfg env fuel (i + 1) (k + 1) 0).1) := by
            simp only [runFrom]
            rw [if_neg hend, if_neg hpre, if_neg hfail]
          have htr2 : (runFrom cfg env (fuel + 1) i k c).2 =
              (runFrom cfg env fuel (i + 1) (k + 1) 0).2 := by
            simp only [runFrom]
            rw [if_neg hend, if_neg hpre, if_neg hfail]
          rw [htr1, htr2]
          have e1 : replay c
              (Ev.attempt i 0 (env.out k) ::
                ((if i < cfg.endNum then [Ev.wait .betweenW cfg.interval] else []) ++
                  (runFrom cfg env fuel (i + 1) (k + 1) 0).1)) =
              replay (evStep c (Ev.attempt i 0 (env.out k)))
                ((if i < cfg.endNum then [Ev.wait .betweenW cfg.interval] else []) ++
                  (runFrom cfg env fuel (i + 1) (k + 1) 0).1) := rfl
          rw [e1, hstep, replay_append, hT2]
          exact ih (i + 1) (k + 1) 0

/-- Counterexample to claim C3 as stated: one file, first attempt a 500,
single retry a 404. The code's final counter is 1, while the claimed
update rule (404 on a retry resets to zero) replays to 0 over the very
same trace: a 404 on a retry attempt does not reset consecutiveFailures. -/
theorem counter_404_on_retry_cex :
    (runFrom ⟨0, 0, 6, 1, 300, 2, 8⟩
      ⟨fun _ => false, fun t => if t = 0 then ⟨500, 0, false⟩ else ⟨404, 0, false⟩⟩
      1 0 0 0).2 = 1 ∧
    replaySpec 0
      (runFrom ⟨0, 0, 6, 1, 300, 2, 8⟩
        ⟨fun _ => false, fun t => if t = 0 then ⟨500, 0, false⟩ else ⟨404, 0, false⟩⟩
        1 0 0 0).1 = 0 ∧
    (1 : ℕ) ≠ 0 :=
  ⟨rfl, rfl, by omega⟩

/-- The retry loop's trace is empty or starts with its first attempt. -/
theorem retryLoop_head (cfg : Cfg) (env : Env) (i : ℕ) (r k a : ℕ) :
    (retryLoop cfg env i k a r).1 = [] ∨
    ∃ res t, (retryLoop cfg env i k a r).1 = .attempt i a res :: t := by
  cases r with
  | zero => exact Or.inl rfl
  | succ r =>
    right
    by_cases hs : isSuccess (env.out k) = true
    · exact ⟨env.out k, [], by simp only [retryLoop, if_pos hs]⟩
    · exact ⟨env.out k,
        Ev.wait .retryW (retryWait cfg (env.out k)) ::
          (retryLoop cfg env i (k + 1) (a + 1) r).1,
        by simp only [retryLoop, if_neg hs]⟩

/-- The retry loop's trace ends in the successful attempt when it
succeeded, and in a trailing retry wait (or is empty) when it failed. -/
theorem retryLoop_last (cfg : Cfg) (env : Env) (i : ℕ) :
    ∀ r k a,
      ((retryLoop cfg env i k a r).2.2 = true →
        ∃ i' n' res, (retryLoop cfg env i k a r).1.getLast? =
          some (.attempt i' n' res)) ∧
      ((retryLoop cfg env i k a r).2.2 = false →
        (retryLoop cfg env i k a r).1 = [] ∨
        ∃ b, (retryLoop cfg env i k a r).1.getLast? = some (.wait .retryW b)) := by
  intro r
  induction r with
  | zero =>
    intro k a
    exact ⟨fun h => by simp [retryLoop] at h, fun _ => Or.inl rfl⟩
  | succ r ih =>
    intro k a
    by_cases hs : isSuccess (env.out k) = true
    · refine ⟨fun _ => ⟨i, a, env.out k, by simp only [retryLoop, if_pos hs]; rfl⟩,
        fun h => ?_⟩
      rw [show (retryLoop cfg env i k a (r + 1)).2 =
        (k + 1, true) from by simp only [retryLoop, if_pos hs]] at h
      simp at h
    · have hunf1 : (retryLoop cfg env i k a (r + 1)).1 =
          Ev.attempt i a (env.out k) ::
            Ev.wait .retryW (retryWait cfg (env.out k)) ::
              (retryLoop cfg env i (k + 1) (a + 1) r).1 := by
        simp only [retryLoop, if_neg hs]
      have hunf2 : (retryLoop cfg env i k a (r + 1)).2 =
          (retryLoop cfg env i (k + 1) (a + 1) r).2 := by
        simp only [retryLoop, if_neg hs]
      constructor
      · intro hok
        rw [hunf2] at hok
        obtain ⟨i', n', res', hlast⟩ := (ih (k + 1) (a + 1)).1 hok
        refine ⟨i', n', res', ?_⟩
        rw [hunf1, List.getLast?_cons_cons]
        rcases retryLoop_head cfg env i r (k + 1) (a + 1) with h0 | ⟨res₀, t₀, h0⟩
        · rw [h0] at hlast
          simp at hlast
        · rw [h0] at hlast ⊢
          rw [List.getLast?_cons_cons]
          exact hlast
      · intro hok
        rw [hunf2] at hok
        right
        rcases (ih (k + 1) (a + 1)).2 hok with h0 | ⟨b, hb⟩
        · refine ⟨retryWait cfg (env.out k), ?_⟩
          rw [hunf1, h0]
          rfl
        · refine ⟨b, ?_⟩
          rw [hunf1, List.getLast?_cons_cons]
          rcases retryLoop_head cfg env i r (k + 1) (a + 1) with h0 | ⟨res₀, t₀, h0⟩
          · rw [h0] at hb
            simp at hb
          · rw [h0] at hb ⊢
            rw [List.getLast?_cons_cons]
            exact hb

/-- Adjacent events inside the retry loop satisfy pairOK: each retry wait
directly follows its attempt with the hint-or-interval base, and each
further retry attempt directly follows a retry wait. -/
theorem retryLoop_chain (cfg : Cfg) (env : Env) (i : ℕ) :
    ∀ r k a, List.Chain' (fun x y => pairOK cfg x y = true)
      (retryLoop cfg env i k a r).1 := by
  intro r
  induction r with
  | zero =>
    intro k a
    simp [retryLoop]
  | succ r ih =>
    intro k a
    by_cases hs : isSuccess (env.out k) = true
    · simp only [retryLoop, if_pos hs]
      exact List.chain'_singleton _
    · have hunf1 : (retryLoop cfg env i k a (r + 1)).1 =
          Ev.attempt i a (env.out k) ::
            Ev.wait .retryW (retryWait cfg (env.out k)) ::
              (retryLoop cfg env i (k + 1) (a + 1) r).1 := by
        simp only [retryLoop, if_neg hs]
      rw [hunf1, List.chain'_cons]
      refine ⟨by simp [pairOK], ?_⟩
      rw [List.chain'_cons']
      refine ⟨?_, ih (k + 1) (a + 1)⟩
      intro y hy
      rcases retryLoop_head cfg env i r (k + 1) (a + 1) with h0 | ⟨res₀, t₀, h0⟩
      · rw [h0] at hy
        simp at hy
      · rw [h0] at hy
        simp at hy
        subst hy
        rfl

/-- A retry loop that exhausted its budget emitted exactly one attempt
and one wait per allowed retry. -/
theorem retryLoop_len (cfg : Cfg) (env : Env) (i : ℕ) :
    ∀ r k a, (retryLoop cfg env i k a r).2.2 = false →
      (retryLoop cfg env i k a r).1.length = 2 * r := by
  intro r
  induction r with
  | zero =>
    intro k a _
    rfl
  | succ r ih =>
    intro k a h
    by_cases hs : isSuccess (env.out k) = true
    · rw [show (retryLoop cfg env i k a (r + 1)).2 =
        (k + 1, true) from by simp only [retryLoop, if_pos hs]] at h
      simp at h
    · have hunf1 : (retryLoop cfg env i k a (r + 1)).1 =
          Ev.attempt i a (env.out k) ::
            Ev.wait .retryW (retryWait cfg (env.out k)) ::
              (retryLoop cfg env i (k + 1) (a + 1) r).1 := by
        simp only [retryLoop, if_neg hs]
      have hunf2 : (retryLoop cfg env i k a (r + 1)).2 =
          (retryLoop cfg env i (k + 1) (a + 1) r).2 := by
        simp only [retryLoop, if_neg hs]
      rw [hunf2] at h
      rw [hunf1, List.length_cons, List.length_cons, ih (k + 1) (a + 1) h]
      omega

/-- A run's trace is empty or starts with a skip or a first attempt. -/
theorem runFrom_head (cfg : Cfg) (env : Env) (fuel i k c : ℕ) :
    (runFrom cfg env fuel i k c).1 = [] ∨
    (∃ i' t, (runFrom cfg env fuel i k c).1 = .skip i' :: t) ∨
    (∃ i' res t, (runFrom cfg env fuel i k c).1 = .attempt i' 0 res :: t) := by
  cases fuel with
  | zero => exact Or.inl rfl
  | succ fuel =>
    by_cases hend : cfg.endNum < i
    · left
      simp only [runFrom]
      rw [if_pos hend]
    · by_cases hpre : env.pre i = true
      · refine Or.inr (Or.inl ⟨i,
          Ev.wait .skipW cfg.interval :: (runFrom cfg env fuel (i + 1) k c).1, ?_⟩)
        simp only [runFrom]
        rw [if_neg hend, if_pos hpre]
      · by_cases hfail : isFailure (env.out k) = true
        · by_cases hthr : cfg.maxErrors ≤ c + 1
          · refine Or.inr (Or.inr ⟨i, env.out k, [Ev.abort (c + 1)], ?_⟩)
            simp only [runFrom]
            rw [if_neg hend, if_neg hpre, if_pos hfail, if_pos hthr]
          · by_cases hok : (retryLoop cfg env i (k + 1) 1 cfg.retries).2.2 = true
            · refine Or.inr (Or.inr ⟨i, env.out k,
                Ev.wait .firstW (firstWait cfg (c + 1) (env.out k)) ::
                  ((retryLoop cfg env i (k + 1) 1 cfg.retries).1 ++
                    ((if i < cfg.endNum then [Ev.wait .betweenW cfg.interval]
                      else []) ++
                      (runFrom cfg env fuel (i + 1)
                        (retryLoop cfg env i (k + 1) 1 cfg.retries).2.1 0).1)), ?_⟩)
              simp only [runFrom]
              rw [if_neg hend, if_neg hpre, if_pos hfail, if_neg hthr, if_pos hok]
            · refine Or.inr (Or.inr ⟨i, env.out k,
                Ev.wait .firstW (firstWait cfg (c + 1) (env.out k)) ::
                  ((retryLoop cfg env i (k + 1) 1 cfg.retries).1 ++
                    (runFrom cfg env fuel (i + 1)
                      (retryLoop cfg env i (k + 1) 1 cfg.retries).2.1 (c + 1)).1), ?_⟩)
              simp only [runFrom]
              rw [if_neg hend, if_neg hpre, if_pos hfail, if_neg hthr, if_neg hok]
        · refine Or.inr (Or.inr ⟨i, env.out k,
            (if i < cfg.endNum then [Ev.wait .betweenW cfg.interval] else []) ++
              (runFrom cfg env fuel (i + 1) (k + 1) 0).1, ?_⟩)
          simp only [runFrom]
          rw [if_neg hend, if_neg hpre, if_neg hfail]

/-- Adjacent events of a whole run satisfy pairOK. -/
theorem runFrom_chain (cfg : Cfg) (env : Env) (fuel : ℕ) :
    ∀ i k c, List.Chain' (fun x y => pairOK cfg x y = true)
      (runFrom cfg env fuel i k c).1 := by
  induction fuel with
  | zero =>
    intro i k c
    exact List.chain'_nil
  | succ fuel ih =>
    intro i k c
    have hresthead : ∀ k₀ c₀ (y : Ev) (x : Ev),
        (∀ i' , pairOK cfg x (Ev.skip i') = true) →
        (∀ i' res, pairOK cfg x (Ev.attempt i' 0 res) = true) →
        y ∈ (runFrom cfg env fuel (i + 1) k₀ c₀).1.head? → pairOK cfg x y = true := by
      intro k₀ c₀ y x hskip hatt hy
      rcases runFrom_head cfg env fuel (i + 1) k₀ c₀ with h0 | ⟨i', t, h⟩ |
        ⟨i', res, t, h⟩
      · rw [h0] at hy
        simp at hy
      · rw [h] at hy
        simp at hy
        subst hy
        exact hskip i'
      · rw [h] at hy
        simp at hy
        subst hy
        exact hatt i' res
    by_cases hend : cfg.endNum < i
    · have htr : runFrom cfg env (fuel + 1) i k c = ([], c) := by
        simp only [runFrom]
        rw [if_pos hend]
      rw [htr]
      exact List.chain'_nil
    · by_cases hpre : env.pre i = true
      · have htr1 : (runFrom cfg env (fuel + 1) i k c).1 =
            Ev.skip i :: Ev.wait .skipW cfg.interval ::
              (runFrom cfg env fuel (i + 1) k c).1 := by
          simp only [runFrom]
          rw [if_neg hend, if_pos hpre]
        rw [htr1, List.chain'_cons]
        refine ⟨rfl, ?_⟩
        rw [List.chain'_cons']
        refine ⟨?_, ih (i + 1) k c⟩
        intro y hy
        exact hresthead k c y _ (fun _ => rfl) (fun _ _ => rfl) hy
      · by_cases hfail : isFailure (env.out k) = true
        · by_cases hthr : cfg.maxErrors ≤ c + 1
          · have htr1 : (runFrom cfg env (fuel + 1) i k c).1 =
                [Ev.attempt i 0 (env.out k), Ev.abort (c + 1)] := by
              simp only [runFrom]
              rw [if_neg hend, if_neg hpre, if_pos hfail, if_pos hthr]
            rw [htr1, List.chain'_cons]
            exact ⟨rfl, List.chain'_singleton _⟩
          · have htail : List.Chain' (fun x y => pairOK cfg x y = true)
                (if i < cfg.endNum then [Ev.wait .betweenW cfg.interval] else []) := by
              by_cases hlt : i < cfg.endNum <;> simp [hlt]
            by_cases hok : (retryLoop cfg env i (k + 1) 1 cfg.retries).2.2 = true
            · have htr1 : (runFrom cfg env (fuel + 1) i k c).1 =
                  Ev.attempt i 0 (env.out k) ::
                    Ev.wait .firstW (firstWait cfg (c + 1) (env.out k)) ::
                      ((retryLoop cfg env i (k + 1) 1 cfg.retries).1 ++
                        ((if i < cfg.endNum then [Ev.wait .betweenW cfg.interval]
                          else []) ++
                          (runFrom cfg env fuel (i + 1)
                            (retryLoop cfg env i (k + 1) 1 cfg.retries).2.1 0).1)) := by
                simp only [runFrom]
                rw [if_neg hend, if_neg hpre, if_pos hfail, if_neg hthr, if_pos hok]
              rw [htr1, List.chain'_cons]
              refine ⟨rfl, ?_⟩
              rw [List.chain'_cons']
              constructor
              · intro y hy
                rcases retryLoop_head cfg env i cfg.retries (k + 1) 1 with h0 |
                  ⟨res₀, t₀, h0⟩
                · rw [h0, List.nil_append] at hy
                  by_cases hlt : i < cfg.endNum
                  · rw [if_pos hlt] at hy
                    simp at hy
                    subst hy
                    rfl
                  · rw [if_neg hlt, List.nil_append] at hy
                    exact hresthead _ 0 y _ (fun _ => rfl) (fun _ _ => rfl) hy
                · rw [h0, List.cons_append] at hy
                  simp at hy
                  subst hy
                  rfl
              · rw [List.chain'_append]
                refine ⟨retryLoop_chain cfg env i cfg.retries (k + 1) 1, ?_, ?_⟩
                · rw [List.chain'_append]
                  refine ⟨htail, ih (i + 1) _ 0, ?_⟩
                  intro x hx y hy
                  by_cases hlt : i < cfg.endNum
                  · rw [if_pos hlt] at hx
                    simp at hx
                    subst hx
                    exact hresthead _ 0 y _ (fun _ => rfl) (fun _ _ => rfl) hy
                  · rw [if_neg hlt] at hx
                    simp at hx
                · intro x hx y hy
                  obtain ⟨i₀, n₀, res₀, hlast⟩ :=
                    (retryLoop_last cfg env i cfg.retries (k + 1) 1).1 hok
                  rw [hlast] at hx
                  simp at hx
                  subst hx
                  rcases retryLoop_head cfg env i cfg.retries (k + 1) 1 with h0 |
                    ⟨res₁, t₁, h1⟩
                  · rw [h0] at hlast
                    simp at hlast
                  · by_cases hlt : i < cfg.endNum
                    · rw [if_pos hlt] at hy
                      simp at hy
                      subst hy
                      rfl
                    · rw [if_neg hlt, List.nil_append] at hy
                      exact hresthead _ 0 y _ (fun _ => rfl) (fun _ _ => rfl) hy
            · have hnotok : (retryLoop cfg env i (k + 1) 1 cfg.retries).2.2 = false := by
                simpa using hok
              have htr1 : (runFrom cfg env (fuel + 1) i k c).1 =
                  Ev.attempt i 0 (env.out k) ::
                    Ev.wait .firstW (firstWait cfg (c + 1) (env.out k)) ::
                      ((retryLoop cfg env i (k + 1) 1 cfg.retries).1 ++
                        (runFrom cfg env fuel (i + 1)
                          (retryLoop cfg env i (k + 1) 1 cfg.retries).2.1 (c + 1)).1) := by
                simp only [runFrom]
                rw [if_neg hend, if_neg hpre, if_pos hfail, if_neg hthr, if_neg hok]
              rw [htr1, List.chain'_cons]
              refine ⟨rfl, ?_⟩
              rw [List.chain'_cons']
              constructor
              · intro y hy
                rcases retryLoop_head cfg env i cfg.retries (k + 1) 1 with h0 |
                  ⟨res₀, t₀, h0⟩
                · rw [h0, List.nil_append] at hy
                  exact hresthead _ (c + 1) y _ (fun _ => rfl) (fun _ _ => rfl) hy
                · rw [h0, List.cons_append] at hy
                  simp at hy
                  subst hy
                  rfl
              · rw [List.chain'_append]
                refine ⟨retryLoop_chain cfg env i cfg.retries (k + 1) 1,
                  ih (i + 1) _ (c + 1), ?_⟩
                intro x hx y hy
                rcases (retryLoop_last cfg env i cfg.retries (k + 1) 1).2 hnotok with
                  h0 | ⟨b, hb⟩
                · rw [h0] at hx
                  simp at hx
                · rw [hb] at hx
                  simp at hx
                  subst hx
                  exact hresthead _ (c + 1) y _ (fun _ => rfl) (fun _ _ => rfl) hy
        · have htr1 : (runFrom cfg env (fuel + 1) i k c).1 =
              Ev.attempt i 0 (env.out k) ::
                ((if i < cfg.endNum then [Ev.wait .betweenW cfg.interval] else []) ++
                  (runFrom cfg env fuel (i + 1) (k + 1) 0).1) := by
            simp only [runFrom]
            rw [if_neg hend, if_neg hpre, if_neg hfail]
          rw [htr1, List.chain'_cons']
          constructor
          · intro y hy
            by_cases hlt : i < cfg.endNum
            · rw [if_pos hlt] at hy
              simp at hy
              subst hy
              rfl
            · rw [if_neg hlt, List.nil_append] at hy
              exact hresthead (k + 1) 0 y _ (fun _ => rfl) (fun _ _ => rfl) hy
          · rw [List.chain'_append]
            refine ⟨?_, ih (i + 1) (k + 1) 0, ?_⟩
            · by_cases hlt : i < cfg.endNum <;> simp [hlt]
            · intro x hx y hy
              by_cases hlt : i < cfg.endNum
              · rw [if_pos hlt] at hx
                simp at hx
                subst hx
                exact hresthead (k + 1) 0 y _ (fun _ => rfl) (fun _ _ => rfl) hy
              · rw [if_neg hlt] at hx
                simp at hx

/-- Claim C4 (amended): in the whole run each retry-loop wait immediately
follows an attempt and carries exactly that attempt's hint-or-interval
wait; each retry attempt is immediately preceded by exactly one wait (the
error-class wait for the first retry, a retry-loop wait afterwards); and
a retry loop that exhausted its budget emitted one trailing wait after
its final failed attempt — exactly 2·retries events — after which the
run moves directly to the next file's first event, never to another
wait. -/
theorem retry_wait_placement (cfg : Cfg) (env : Env) (fuel i k c i' k' a' r : ℕ)
    (hnotok : (retryLoop cfg env i' k' a' r).2.2 = false) :
    List.Chain' (fun x y => pairOK cfg x y = true) (runFrom cfg env fuel i k c).1 ∧
    (retryLoop cfg env i' k' a' r).1.length = 2 * r :=
  ⟨runFrom_chain cfg env fuel i k c, retryLoop_len cfg env i' r k' a' hnotok⟩

/-- Witness for retry_wait_placement at a concrete input: a single file
whose first attempt and single retry both fail with a hintless 500. -/
theorem retry_wait_placement_w :
    ((retryLoop ⟨0, 0, 6, 1, 300, 2, 8⟩ ⟨fun _ => false, fun _ => ⟨500, 0, false⟩⟩
        0 1 1 1).2.2 = false) ∧
    (List.Chain' (fun x y => pairOK ⟨0, 0, 6, 1, 300, 2, 8⟩ x y = true)
        (runFrom ⟨0, 0, 6, 1, 300, 2, 8⟩ ⟨fun _ => false, fun _ => ⟨500, 0, false⟩⟩
          1 0 0 0).1 ∧
      (retryLoop ⟨0, 0, 6, 1, 300, 2, 8⟩ ⟨fun _ => false, fun _ => ⟨500, 0, false⟩⟩
          0 1 1 1).1.length = 2 * 1) :=
  ⟨rfl,
    retry_wait_placement ⟨0, 0, 6, 1, 300, 2, 8⟩
      ⟨fun _ => false, fun _ => ⟨500, 0, false⟩⟩ 1 0 0 0 0 1 1 1 rfl⟩

/-- Counterexample to claim C4 as stated: one file, retries 1, every
attempt a hintless 500. The trace ends with a retry-loop wait that comes
after the final retry attempt — an additional wait the claim rules out —
and the single wait preceding the first retry attempt has base 12 (the
exponential backoff), not the hint-or-interval value 6. -/
theorem retry_trailing_wait_cex :
    (runFrom ⟨0, 0, 6, 1, 300, 2, 8⟩ ⟨fun _ => false, fun _ => ⟨500, 0, false⟩⟩
        1 0 0 0).1.getLast? =
      some (.wait .retryW
        (retryWait ⟨0, 0, 6, 1, 300, 2, 8⟩ ⟨500, 0, false⟩)) ∧
    retryWait ⟨0, 0, 6, 1, 300, 2, 8⟩ ⟨500, 0, false⟩ = 6 ∧
    (runFrom ⟨0, 0, 6, 1, 300, 2, 8⟩ ⟨fun _ => false, fun _ => ⟨500, 0, false⟩⟩
        1 0 0 0).1.take 2 =
      [.attempt 0 0 ⟨500, 0, false⟩,
        .wait .firstW (firstWait ⟨0, 0, 6, 1, 300, 2, 8⟩ 1 ⟨500, 0, false⟩)] ∧
    firstWait ⟨0, 0, 6, 1, 300, 2, 8⟩ 1 ⟨500, 0, false⟩ = 12 ∧
    (12 : ℚ) ≠ 6 := by
  refine ⟨rfl, ?_, rfl, ?_, by norm_num⟩
  · norm_num [retryWait]
  · norm_num [firstWait, min_def]

/-- Witness for range_tasks_spec at a concrete input: the range 64…66
with pad 4 contains the task (65, label 0065). -/
theorem range_tasks_spec_w :
    (64 ≤ 66 ∧ ((65 : ℕ), "0065") ∈ rangeTasks 64 66 4) ∧
    ((rangeTasks 64 66 4).length = 66 - 64 + 1 ∧
      List.Chain' (fun a b : ℕ × String => a.1 < b.1) (rangeTasks 64 66 4) ∧
      ((65 : ℕ), "0065").2 = padLabel 4 ((65 : ℕ), "0065").1 ∧
      ((toString ((65 : ℕ), "0065").1).length ≤ 4 → ((65 : ℕ), "0065").2.length = 4)) :=
  ⟨⟨by norm_num, by decide⟩,
    range_tasks_spec 64 66 4 (65, "0065") (by norm_num) (by decide)⟩

end Qxdl
